import Mathlib

/-!
Shallow embedding of the data-transformation pipeline of the Chubang sales dashboard
(`dataService` module: `mapProductCategory`, `processData`, `filterData`,
`aggregateByField`, `getTrendData`) together with proofs of the specified properties.

Numbers: the TypeScript source computes on IEEE doubles; amounts and the derived
sums are modelled with exact rationals (`ℚ`), years/months and the linearised
date keys with `ℤ`.  JavaScript `NaN` arising from `parseInt` on non-numeric
strings is modelled by `Option ℤ` with `none` for `NaN`.
-/

namespace Chubang

/-- One entry of `CATEGORY_RULES`: an ordered (keyword, category, subCategory) rule. -/
structure CategoryRule where
  keyword : String
  category : String
  subCategory : String
deriving Repr, DecidableEq, Inhabited

/-- `pat` is a prefix of `s` (character lists). -/
def listStartsWith : List Char → List Char → Bool
  | [], _ => true
  | _ :: _, [] => false
  | p :: ps, c :: cs => p == c && listStartsWith ps cs

/-- `pat` occurs as a contiguous run inside `s` (character lists). -/
def listOccurs (pat : List Char) : List Char → Bool
  | [] => pat.isEmpty
  | c :: cs => listStartsWith pat (c :: cs) || listOccurs pat cs

/-- JavaScript `s.includes(pat)`: `pat` occurs as a contiguous substring of `s`. -/
def strContains (s pat : String) : Bool :=
  listOccurs pat.toList s.toList

/-- `mapProductCategory` from the data service.  The rule list `CATEGORY_RULES` and the
defaults `DEFAULT_CATEGORY` / `DEFAULT_SUB_CATEGORY` live in `constants.ts`, which is
configuration outside the provided sources, so they are taken as parameters; the
traversal is the source's `for (const rule of CATEGORY_RULES)` loop with early return
on `productName.includes(rule.keyword)` and the default pair when the loop falls through. -/
def mapProductCategory (rules : List CategoryRule) (defaultCategory defaultSubCategory : String)
    (productName : String) : String × String :=
  match rules with
  | [] => (defaultCategory, defaultSubCategory)
  | rule :: rest =>
      if strContains productName rule.keyword then
        (rule.category, rule.subCategory)
      else
        mapProductCategory rest defaultCategory defaultSubCategory productName

/-- A raw sales record (`RawSalesData`), fields as produced by the ingestion mapping in
`App.tsx`. -/
structure RawSalesData where
  businessUnit : String
  department : String
  salesperson : String
  date : String
  customerName : String
  companyName : String
  sku : String
  productName : String
  quantity : ℚ
  amount : ℚ
deriving Repr, DecidableEq, Inhabited

/-- An enriched record (`ProcessedSalesData`): a raw record plus classifier output and
the year/month decomposed from the date string. -/
structure ProcessedSalesData where
  businessUnit : String
  department : String
  salesperson : String
  date : String
  customerName : String
  companyName : String
  sku : String
  productName : String
  quantity : ℚ
  amount : ℚ
  category : String
  subCategory : String
  year : ℤ
  month : ℤ
deriving Repr, DecidableEq, Inhabited

/-- Calendar year of an ISO `YYYY-MM-DD` date string: model of
`new Date(item.date).getFullYear()` on the normalised date strings the ingestion
stage produces (plain calendar decomposition, per the spec). -/
def yearOfDate (s : String) : ℤ :=
  (((s.splitOn "-").headD "").toInt?).getD 0

/-- 1-indexed calendar month of an ISO `YYYY-MM-DD` date string: model of
`new Date(item.date).getMonth() + 1`. -/
def monthOfDate (s : String) : ℤ :=
  (((((s.splitOn "-").drop 1).headD "").toNat?).getD 0 : ℕ)

/-- `processData`: enrich each raw record with classifier output and year/month,
one output per input, in order. -/
def processData (rules : List CategoryRule) (defaultCategory defaultSubCategory : String)
    (rawData : List RawSalesData) : List ProcessedSalesData :=
  rawData.map fun item =>
    let p := mapProductCategory rules defaultCategory defaultSubCategory item.productName
    { businessUnit := item.businessUnit
      department := item.department
      salesperson := item.salesperson
      date := item.date
      customerName := item.customerName
      companyName := item.companyName
      sku := item.sku
      productName := item.productName
      quantity := item.quantity
      amount := item.amount
      category := p.1
      subCategory := p.2
      year := yearOfDate item.date
      month := monthOfDate item.date }

/-- The active query (`FilterState`): textual year/month bounds and facet/text filters. -/
structure FilterState where
  startYear : String
  startMonth : String
  endYear : String
  endMonth : String
  businessUnit : String
  department : String
  salesperson : String
  category : String
  subCategory : String
  customerName : String
  productName : String
deriving Repr, DecidableEq, Inhabited

/-- Model of JavaScript `parseInt(s)` on radix-10 input: skip leading whitespace, read an
optional sign, then the longest leading run of decimal digits; `none` models `NaN`
(no digits found). -/
def parseIntJS (s : String) : Option ℤ :=
  let t := s.toList.dropWhile fun c => c == ' ' || c == '\t' || c == '\n' || c == '\r'
  let signAndRest : ℤ × List Char :=
    match t with
    | '-' :: rest => (-1, rest)
    | '+' :: rest => (1, rest)
    | _ => (1, t)
  let digits := signAndRest.2.takeWhile Char.isDigit
  if digits.isEmpty then none
  else some (signAndRest.1 * (digits.foldl (fun n c => 10 * n + ((c.toNat - '0'.toNat : ℕ) : ℤ)) 0))

/-- JavaScript `+` on numbers, with `none` as `NaN` (absorbing). -/
def jsAdd : Option ℤ → Option ℤ → Option ℤ
  | some a, some b => some (a + b)
  | some _, none => none
  | none, _ => none

/-- JavaScript `*` on numbers, with `none` as `NaN` (absorbing). -/
def jsMul : Option ℤ → Option ℤ → Option ℤ
  | some a, some b => some (a * b)
  | some _, none => none
  | none, _ => none

/-- JavaScript `<` on numbers: any comparison with `NaN` is false. -/
def jsLt : Option ℤ → Option ℤ → Bool
  | some a, some b => a < b
  | some _, none => false
  | none, _ => false

/-- JavaScript `>` on numbers: any comparison with `NaN` is false. -/
def jsGt : Option ℤ → Option ℤ → Bool
  | some a, some b => b < a
  | some _, none => false
  | none, _ => false

/-- The Date Range Logic block at the head of `filterData`: the record passes unless
`itemDateVal < startDateVal || itemDateVal > endDateVal`, where the bounds are
`parseInt(filters.startYear) * 100 + parseInt(filters.startMonth)` and likewise for the
end, with JavaScript `NaN` semantics when a bound string does not parse. -/
def dateRangeOk (filters : FilterState) (item : ProcessedSalesData) : Bool :=
  let itemDateVal : Option ℤ := some (item.year * 100 + item.month)
  let startDateVal := jsAdd (jsMul (parseIntJS filters.startYear) (some 100)) (parseIntJS filters.startMonth)
  let endDateVal := jsAdd (jsMul (parseIntJS filters.endYear) (some 100)) (parseIntJS filters.endMonth)
  !(jsLt itemDateVal startDateVal || jsGt itemDateVal endDateVal)

/-- The per-record predicate of `filterData`.  The source is a chain of early
`return false` tests; that chain is the conjunction of the negated reject conditions,
in source order: date range, department-account constraint (a JavaScript truthiness
test, so an empty constraint string is inert), the five exact-match facet filters
(each skipped when empty or the sentinel `All`), and the two substring text filters
(each skipped when empty). -/
def recordPasses (filters : FilterState) (deptConstraint : Option String)
    (item : ProcessedSalesData) : Bool :=
  dateRangeOk filters item
  && !(match deptConstraint with
       | some c => decide (c ≠ "" ∧ item.department ≠ c)
       | none => false)
  && !(decide (filters.businessUnit ≠ "" ∧ filters.businessUnit ≠ "All"
        ∧ item.businessUnit ≠ filters.businessUnit))
  && !(decide (filters.department ≠ "" ∧ filters.department ≠ "All"
        ∧ item.department ≠ filters.department))
  && !(decide (filters.salesperson ≠ "" ∧ filters.salesperson ≠ "All"
        ∧ item.salesperson ≠ filters.salesperson))
  && !(decide (filters.category ≠ "" ∧ filters.category ≠ "All"
        ∧ item.category ≠ filters.category))
  && !(decide (filters.subCategory ≠ "" ∧ filters.subCategory ≠ "All"
        ∧ item.subCategory ≠ filters.subCategory))
  && !(decide (filters.customerName ≠ "")
        && !(strContains item.customerName filters.customerName))
  && !(decide (filters.productName ≠ "")
        && !(strContains item.productName filters.productName))

/-- `filterData`: keep the records satisfying every filter, preserving order. -/
def filterData (data : List ProcessedSalesData) (filters : FilterState)
    (deptConstraint : Option String) : List ProcessedSalesData :=
  data.filter (recordPasses filters deptConstraint)

/-- One ranked slice of an aggregation (`ChartDataPoint`). -/
structure ChartDataPoint where
  name : String
  value : ℚ
  percentage : ℚ
deriving Repr, DecidableEq, Inhabited

/-- JavaScript `Map.set` on a map represented as its entry list in insertion order:
an existing key is updated in place, a new key is appended. -/
def mapSet : List (String × ℚ) → String → ℚ → List (String × ℚ)
  | [], k, v => [(k, v)]
  | (k', v') :: rest, k, v =>
      if k' = k then (k', v) :: rest else (k', v') :: mapSet rest k v

/-- The fields of `ProcessedSalesData` (the `keyof ProcessedSalesData` argument of
`aggregateByField`). -/
inductive SalesField where
  | businessUnit | department | salesperson | date | customerName | companyName | sku
  | productName | quantity | amount | category | subCategory | year | month
deriving Repr, DecidableEq

/-- `String(d[field])`: the grouping key of a record for a field. -/
def fieldString (d : ProcessedSalesData) : SalesField → String
  | .businessUnit => d.businessUnit
  | .department => d.department
  | .salesperson => d.salesperson
  | .date => d.date
  | .customerName => d.customerName
  | .companyName => d.companyName
  | .sku => d.sku
  | .productName => d.productName
  | .quantity => toString d.quantity
  | .amount => toString d.amount
  | .category => d.category
  | .subCategory => d.subCategory
  | .year => toString d.year
  | .month => toString d.month

/-- One step of `aggregateByField`'s `forEach`:
`map.set(key, (map.get(key) || 0) + val); total += val`. -/
def aggStep (field : SalesField) (acc : List (String × ℚ) × ℚ)
    (d : ProcessedSalesData) : List (String × ℚ) × ℚ :=
  let key := fieldString d field
  (mapSet acc.1 key (((acc.1.lookup key).getD 0) + d.amount), acc.2 + d.amount)

/-- The grouped sums (in key insertion order) and the grand total accumulated by
`aggregateByField`'s traversal. -/
def aggregateEntries (data : List ProcessedSalesData) (field : SalesField) :
    List (String × ℚ) × ℚ :=
  data.foldl (aggStep field) ([], 0)

/-- Descending-by-value order on chart points (JavaScript comparator
`(a, b) => b.value - a.value`). -/
def valueDesc (a b : ChartDataPoint) : Prop := b.value ≤ a.value

instance : DecidableRel valueDesc :=
  fun a b => inferInstanceAs (Decidable (b.value ≤ a.value))

instance : IsTrans ChartDataPoint valueDesc :=
  ⟨fun _ _ _ hab hbc => le_trans hbc hab⟩

instance : IsTotal ChartDataPoint valueDesc :=
  ⟨fun a b => le_total b.value a.value⟩

/-- `aggregateByField`: group by the string value of `field`, sum `amount` per group,
attach each group's share of the grand total (`0` when the total is not positive,
mirroring `total > 0 ? (value / total) * 100 : 0`), and sort descending by value.
JavaScript's `Array.sort` is a stable sort and the comparator `b.value - a.value` is
consistent, so its result is modelled (uniquely) by a stable insertion sort with the
relation `b.value ≤ a.value`. -/
def aggregateByField (data : List ProcessedSalesData) (field : SalesField) :
    List ChartDataPoint :=
  let acc := aggregateEntries data field
  (acc.1.map fun e =>
      { name := e.1, value := e.2,
        percentage := if acc.2 > 0 then e.2 / acc.2 * 100 else 0 }).insertionSort
    valueDesc

/-- The sum of `amount` over a record list. -/
def totalAmount (data : List ProcessedSalesData) : ℚ :=
  (data.map (·.amount)).sum

/-- `s.padStart(2, '0')`: left-pad with zeros to length 2. -/
def padStart2 (s : String) : String :=
  if s.length ≥ 2 then s else String.mk (List.replicate (2 - s.length) '0') ++ s

/-- The twelve month keys `"01"`..`"12"` that `getTrendData` initialises before any
data is consulted (`for (let m = 1; m <= 12; m++)`). -/
def monthKeys : List String :=
  (List.range 12).map fun i => padStart2 (toString (i + 1))

/-- One row of the year-over-year pivot (`TrendDataPoint`): the month label plus one
`(year, amount)` entry per discovered year, in the order of the sorted year list. -/
structure TrendDataPoint where
  month : String
  values : List (String × ℚ)
deriving Repr, DecidableEq, Inhabited

/-- `monthlyMap[mStr][yStr] = (monthlyMap[mStr][yStr] || 0) + amt` on the nested
record modelled as an association list in key insertion order.  In the source a
month string outside the initialised `"01"`..`"12"` keys would make
`monthlyMap[mStr]` undefined and the update throw; here such an update is a no-op,
which agrees with the source on every input whose months lie in 1..12 — the
hypothesis carried by the trend theorems. -/
def monthlyAdd : List (String × List (String × ℚ)) → String → String → ℚ →
    List (String × List (String × ℚ))
  | [], _, _, _ => []
  | (k, inner) :: rest, mStr, yStr, amt =>
      if k = mStr then
        (k, mapSet inner yStr (((inner.lookup yStr).getD 0) + amt)) :: rest
      else
        (k, inner) :: monthlyAdd rest mStr yStr amt

/-- `yearsFound.add(y)` on a JavaScript `Set` modelled as its insertion-order
element list. -/
def insertYear (ys : List ℤ) (y : ℤ) : List ℤ :=
  if y ∈ ys then ys else ys ++ [y]

/-- One step of `getTrendData`'s `forEach`: record the year and add the amount into
the (month, year) cell. -/
def trendStep (acc : List (String × List (String × ℚ)) × List ℤ)
    (d : ProcessedSalesData) : List (String × List (String × ℚ)) × List ℤ :=
  (monthlyAdd acc.1 (padStart2 (toString d.month)) (toString d.year) d.amount,
   insertYear acc.2 d.year)

/-- Lexicographic comparison of character lists by code point (JavaScript's default
string comparison, used by `Array.sort()` without a comparator). -/
def charListLe : List Char → List Char → Bool
  | [], _ => true
  | _ :: _, [] => false
  | c :: cs, d :: ds => decide (c.toNat < d.toNat) || (c == d && charListLe cs ds)

/-- JavaScript default string order `a <= b`. -/
def strLeJS (a b : String) : Prop := charListLe a.toList b.toList = true

instance : DecidableRel strLeJS :=
  fun a b => inferInstanceAs (Decidable (charListLe a.toList b.toList = true))

/-- `getTrendData`: pivot the records into a month-by-year matrix.  The skeleton of
twelve month rows is built up front; each record adds its amount to its (month, year)
cell and its year to the set of discovered years; the year list is sorted ascending
numerically (no cap); the rows are emitted for the lexicographically sorted month
keys (`Object.keys(monthlyMap).sort()`), each carrying one entry per sorted year,
missing cells exposed as 0 (`monthlyMap[month][year] || 0`). -/
def getTrendData (data : List ProcessedSalesData) : List TrendDataPoint × List String :=
  let init := monthKeys.map fun k => (k, ([] : List (String × ℚ)))
  let acc := data.foldl trendStep (init, [])
  let sortedYears := (acc.2.insertionSort (· ≤ ·)).map toString
  let chartData := ((acc.1.map Prod.fst).insertionSort strLeJS).map fun month =>
    { month := month ++ "月",
      values := sortedYears.map fun year =>
        (year, (((acc.1.lookup month).getD []).lookup year).getD 0) }
  (chartData, sortedYears)

/-- The (month, year) cell exposed by the trend pivot: 0 when absent. -/
def cellVal (mm : List (String × List (String × ℚ))) (mk yStr : String) : ℚ :=
  (((mm.lookup mk).getD []).lookup yStr).getD 0

/-- A concrete rule list for instantiating the universally quantified theorems. -/
def sampleRules : List CategoryRule :=
  [{ keyword := "笔", category := "文具", subCategory := "书写" },
   { keyword := "Widget", category := "CatW", subCategory := "SubW" }]

/-- A concrete raw record. -/
def sampleRaw : RawSalesData :=
  { businessUnit := "BU1", department := "DeptA", salesperson := "Alice",
    date := "2021-03-15", customerName := "Cust", companyName := "Co",
    sku := "S1", productName := "Widget X", quantity := 2, amount := 100 }

/-- A concrete enriched record (March 2021, department DeptA, amount 100). -/
def sampleItem : ProcessedSalesData :=
  { businessUnit := "BU1", department := "DeptA", salesperson := "Alice",
    date := "2021-03-15", customerName := "Cust", companyName := "Co",
    sku := "S1", productName := "Widget X", quantity := 2, amount := 100,
    category := "CatW", subCategory := "SubW", year := 2021, month := 3 }

/-- The enriched record with amount 0 (a legal record: amounts are arbitrary signed
values). -/
def zeroItem : ProcessedSalesData :=
  { sampleItem with amount := 0 }

/-- A concrete filter state with all four bounds parsing. -/
def sampleFilters : FilterState :=
  { startYear := "2021", startMonth := "1", endYear := "2021", endMonth := "12",
    businessUnit := "All", department := "All", salesperson := "All",
    category := "All", subCategory := "All", customerName := "", productName := "" }

/-- The application's initial filter state (`App.tsx`): empty start/end year strings
before a dataset is loaded. -/
def initialFilters : FilterState :=
  { startYear := "", startMonth := "1", endYear := "", endMonth := "12",
    businessUnit := "All", department := "All", salesperson := "All",
    category := "All", subCategory := "All", customerName := "", productName := "" }

/-- A filter state whose start year does not parse while the end bound does. -/
def badStartFilters : FilterState :=
  { sampleFilters with startYear := "x", endYear := "2020" }

/-- C1: `mapProductCategory` returns the (category, subCategory) pair of the first rule,
in list order, whose keyword is a substring of the product name (`List.find?` returns
exactly the first match), and the default pair when no rule's keyword is a substring —
in particular for the empty name against non-empty keywords, since `find?` is `none`
there.  Earliest rule wins regardless of keyword length. -/
theorem mapProductCategory_first_match_or_default
    (rules : List CategoryRule) (defaultCategory defaultSubCategory productName : String) :
    mapProductCategory rules defaultCategory defaultSubCategory productName =
      match rules.find? (fun r => strContains productName r.keyword) with
      | some r => (r.category, r.subCategory)
      | none => (defaultCategory, defaultSubCategory) := by
  induction rules with
  | nil => rfl
  | cons rule rest ih =>
      by_cases h : strContains productName rule.keyword = true
      · simp [mapProductCategory, List.find?, h]
      · simp only [Bool.not_eq_true] at h
        simp [mapProductCategory, List.find?, h, ih]

/-- C2: when all four bound strings parse, the date-range test passes exactly on the
inclusive interval `[startYear*100+startMonth, endYear*100+endMonth]` of the linearised
key `year*100+month`; consequently a start key beyond the end key passes nothing. -/
theorem dateRangeOk_iff_interval (filters : FilterState) (item : ProcessedSalesData)
    (sy sm ey em : ℤ)
    (hsy : parseIntJS filters.startYear = some sy)
    (hsm : parseIntJS filters.startMonth = some sm)
    (hey : parseIntJS filters.endYear = some ey)
    (hem : parseIntJS filters.endMonth = some em) :
    (dateRangeOk filters item = true ↔
      (sy * 100 + sm ≤ item.year * 100 + item.month
        ∧ item.year * 100 + item.month ≤ ey * 100 + em))
    ∧ (ey * 100 + em < sy * 100 + sm → dateRangeOk filters item = false) := by
  constructor
  · simp [dateRangeOk, hsy, hsm, hey, hem, jsAdd, jsMul, jsLt, jsGt]
  · intro hlt
    simp [dateRangeOk, hsy, hsm, hey, hem, jsAdd, jsMul, jsLt, jsGt]
    omega

/-- C3: a non-empty department constraint forces every surviving record's department to
equal it, and an explicit department facet filter that is neither `All` nor empty nor
the constraint itself empties the result: constraint and facet filter are ANDed, the
filter can never widen the constraint. -/
theorem filterData_dept_constraint (data : List ProcessedSalesData) (filters : FilterState)
    (deptConstraint : String) (hc : deptConstraint ≠ "") :
    (∀ r ∈ filterData data filters (some deptConstraint), r.department = deptConstraint)
    ∧ (filters.department ≠ "All" → filters.department ≠ "" →
        filters.department ≠ deptConstraint →
        filterData data filters (some deptConstraint) = []) := by
  constructor
  · intro r hr
    have hp := List.of_mem_filter hr
    simp only [recordPasses, Bool.and_eq_true, Bool.not_eq_true',
      decide_eq_false_iff_not] at hp
    have hdept := hp.1.1.1.1.1.1.1.2
    by_contra hne
    exact hdept ⟨hc, hne⟩
  · intro hAll hne hdc
    rw [filterData, List.filter_eq_nil_iff]
    intro r hr hp
    simp only [recordPasses, Bool.and_eq_true, Bool.not_eq_true',
      decide_eq_false_iff_not] at hp
    have hdept := hp.1.1.1.1.1.1.1.2
    have hfacet := hp.1.1.1.1.1.2
    have hre : r.department = deptConstraint := by
      by_contra h
      exact hdept ⟨hc, h⟩
    exact hfacet ⟨hne, hAll, by rw [hre]; exact fun h => hdc h.symm⟩

/-- C9: filtering is idempotent — running `filterData` on its own output with the same
filter state and constraint returns the output unchanged. -/
theorem filterData_idem (data : List ProcessedSalesData) (filters : FilterState)
    (deptConstraint : Option String) :
    filterData (filterData data filters deptConstraint) filters deptConstraint
      = filterData data filters deptConstraint := by
  simp [filterData, List.filter_filter]

theorem entriesSum_mapSet (m : List (String × ℚ)) (k : String) (v : ℚ) :
    ((mapSet m k (((m.lookup k).getD 0) + v)).map Prod.snd).sum
      = (m.map Prod.snd).sum + v := by
  induction m with
  | nil => simp [mapSet]
  | cons p rest ih =>
      obtain ⟨k', v'⟩ := p
      by_cases h : k' = k
      · subst h
        simp [mapSet, List.lookup]
        ring
      · have hbeq : (k == k') = false := by
          simp [beq_eq_false_iff_ne]
          exact fun he => h he.symm
        simp [mapSet, h, List.lookup, hbeq, ih]
        ring

theorem aggregateEntries_foldl_spec (field : SalesField) (data : List ProcessedSalesData) :
    ∀ (m : List (String × ℚ)) (t : ℚ),
      (((data.foldl (aggStep field) (m, t)).1.map Prod.snd).sum
          = (m.map Prod.snd).sum + totalAmount data)
      ∧ ((data.foldl (aggStep field) (m, t)).2 = t + totalAmount data) := by
  induction data with
  | nil => intro m t; simp [totalAmount]
  | cons d rest ih =>
      intro m t
      simp only [List.foldl_cons, aggStep]
      have h := ih (mapSet m (fieldString d field)
        (((m.lookup (fieldString d field)).getD 0) + d.amount)) (t + d.amount)
      constructor
      · rw [h.1, entriesSum_mapSet]
        simp [totalAmount]
        ring
      · rw [h.2]
        simp [totalAmount]
        ring

theorem aggregateEntries_sum (data : List ProcessedSalesData) (field : SalesField) :
    ((aggregateEntries data field).1.map Prod.snd).sum = totalAmount data
      ∧ (aggregateEntries data field).2 = totalAmount data := by
  have h := aggregateEntries_foldl_spec field data [] 0
  simpa [aggregateEntries] using h

/-- C5: for every input and grouping field, the values of `aggregateByField`'s output
sum to the sum of `amount` over the input — the aggregation neither loses nor
double-counts any amount. -/
theorem aggregateByField_value_sum (data : List ProcessedSalesData) (field : SalesField) :
    ((aggregateByField data field).map (·.value)).sum = totalAmount data := by
  rw [aggregateByField]
  have hperm := List.perm_insertionSort valueDesc
    ((aggregateEntries data field).1.map fun e =>
      { name := e.1, value := e.2,
        percentage := if (aggregateEntries data field).2 > 0
          then e.2 / (aggregateEntries data field).2 * 100 else 0 : ChartDataPoint })
  rw [List.Perm.sum_eq (List.Perm.map (·.value) hperm)]
  rw [List.map_map]
  have : ((fun x : ChartDataPoint => x.value) ∘ fun e : String × ℚ =>
      ({ name := e.1, value := e.2,
         percentage := if (aggregateEntries data field).2 > 0
           then e.2 / (aggregateEntries data field).2 * 100 else 0 } : ChartDataPoint))
      = Prod.snd := rfl
  rw [this]
  exact (aggregateEntries_sum data field).1

theorem sum_map_div_mul (l : List (String × ℚ)) (t : ℚ) :
    ((l.map fun e => e.2 / t * 100).sum) = (l.map Prod.snd).sum / t * 100 := by
  induction l with
  | nil => simp
  | cons e rest ih =>
      simp [ih]
      ring

/-- C4 (amended): when the grand total of amounts is positive the percentages of
`aggregateByField`'s output sum to exactly 100; when the grand total is zero or
negative — in particular for empty input — every output percentage is 0 (never `NaN`)
and the percentages sum to 0. -/
theorem aggregateByField_percentage_sum (data : List ProcessedSalesData)
    (field : SalesField) :
    (0 < totalAmount data →
      ((aggregateByField data field).map (·.percentage)).sum = 100)
    ∧ (totalAmount data ≤ 0 →
        (∀ p ∈ aggregateByField data field, p.percentage = 0)
        ∧ ((aggregateByField data field).map (·.percentage)).sum = 0) := by
  have htot := (aggregateEntries_sum data field).2
  constructor
  · intro hpos
    rw [aggregateByField]
    have hperm := List.perm_insertionSort valueDesc
      ((aggregateEntries data field).1.map fun e =>
        { name := e.1, value := e.2,
          percentage := if (aggregateEntries data field).2 > 0
            then e.2 / (aggregateEntries data field).2 * 100 else 0 : ChartDataPoint })
    rw [List.Perm.sum_eq (List.Perm.map (·.percentage) hperm)]
    rw [List.map_map]
    have hif : (aggregateEntries data field).2 > 0 := by rw [htot]; exact hpos
    have hcomp : ((fun x : ChartDataPoint => x.percentage) ∘ fun e : String × ℚ =>
        ({ name := e.1, value := e.2,
           percentage := if (aggregateEntries data field).2 > 0
             then e.2 / (aggregateEntries data field).2 * 100 else 0 } : ChartDataPoint))
        = fun e : String × ℚ => e.2 / (aggregateEntries data field).2 * 100 := by
      funext e
      simp [hif]
    rw [hcomp, sum_map_div_mul, (aggregateEntries_sum data field).1, htot]
    rw [div_self (ne_of_gt hpos)]
    norm_num
  · intro hnonpos
    have hzero : ∀ p ∈ aggregateByField data field, p.percentage = 0 := by
      intro p hp
      rw [aggregateByField] at hp
      have hmem := (List.perm_insertionSort valueDesc _).mem_iff.mp hp
      obtain ⟨e, -, he⟩ := List.mem_map.mp hmem
      have hif : ¬((aggregateEntries data field).2 > 0) := by
        rw [htot]; exact not_lt.mpr hnonpos
      rw [← he]
      simp [hif]
    refine ⟨hzero, List.sum_eq_zero ?_⟩
    intro x hx
    obtain ⟨p, hp, hpx⟩ := List.mem_map.mp hx
    rw [← hpx]
    exact hzero p hp

/-- C6: for every input and grouping field, `aggregateByField`'s output is sorted
non-increasing by value. -/
theorem aggregateByField_sorted_desc (data : List ProcessedSalesData) (field : SalesField) :
    (aggregateByField data field).Pairwise (fun a b => b.value ≤ a.value) := by
  rw [aggregateByField]
  exact List.sorted_insertionSort valueDesc _

theorem monthlyAdd_keys (mm : List (String × List (String × ℚ)))
    (mS yS : String) (a : ℚ) :
    (monthlyAdd mm mS yS a).map Prod.fst = mm.map Prod.fst := by
  induction mm with
  | nil => rfl
  | cons p rest ih =>
      obtain ⟨k, inner⟩ := p
      by_cases h : k = mS <;> simp [monthlyAdd, h, ih]

theorem trendFold_keys (data : List ProcessedSalesData) :
    ∀ (mm : List (String × List (String × ℚ))) (ys : List ℤ),
      ((data.foldl trendStep (mm, ys)).1).map Prod.fst = mm.map Prod.fst := by
  induction data with
  | nil => intro mm ys; rfl
  | cons d rest ih =>
      intro mm ys
      simp only [List.foldl_cons, trendStep]
      rw [ih, monthlyAdd_keys]

theorem trendFold_years (data : List ProcessedSalesData) :
    ∀ (mm : List (String × List (String × ℚ))) (ys : List ℤ),
      (data.foldl trendStep (mm, ys)).2
        = data.foldl (fun acc d => insertYear acc d.year) ys := by
  induction data with
  | nil => intro mm ys; rfl
  | cons d rest ih =>
      intro mm ys
      simp only [List.foldl_cons, trendStep]
      rw [ih]

theorem insertYear_fold_mem (data : List ProcessedSalesData) :
    ∀ (ys : List ℤ) (y : ℤ),
      y ∈ data.foldl (fun acc d => insertYear acc d.year) ys
        ↔ y ∈ ys ∨ ∃ d ∈ data, d.year = y := by
  induction data with
  | nil => simp
  | cons d rest ih =>
      intro ys y
      simp only [List.foldl_cons]
      rw [ih]
      constructor
      · rintro (hy | hrest)
        · rw [insertYear] at hy
          by_cases h : d.year ∈ ys
          · rw [if_pos h] at hy
            exact Or.inl hy
          · rw [if_neg h] at hy
            rcases List.mem_append.mp hy with h' | h'
            · exact Or.inl h'
            · refine Or.inr ⟨d, List.mem_cons_self d rest, ?_⟩
              have : y = d.year := by simpa using h'
              exact this.symm
        · obtain ⟨d', hd', hy⟩ := hrest
          exact Or.inr ⟨d', List.mem_cons_of_mem _ hd', hy⟩
      · rintro (hy | ⟨d', hd', hy⟩)
        · left
          rw [insertYear]
          by_cases h : d.year ∈ ys
          · rwa [if_pos h]
          · rw [if_neg h]
            exact List.mem_append_left _ hy
        · rcases List.mem_cons.mp hd' with h' | h'
          · left
            rw [insertYear]
            subst h'
            by_cases h : d'.year ∈ ys
            · rw [if_pos h]
              exact hy ▸ h
            · rw [if_neg h]
              exact List.mem_append_right _ (by simpa using hy.symm)
          · exact Or.inr ⟨d', h', hy⟩

theorem insertYear_fold_nodup (data : List ProcessedSalesData) :
    ∀ ys : List ℤ, ys.Nodup →
      (data.foldl (fun acc d => insertYear acc d.year) ys).Nodup := by
  induction data with
  | nil => intro ys h; exact h
  | cons d rest ih =>
      intro ys h
      simp only [List.foldl_cons]
      apply ih
      rw [insertYear]
      by_cases hmem : d.year ∈ ys
      · rwa [if_pos hmem]
      · rw [if_neg hmem]
        simp [List.nodup_append, h, hmem]

theorem lookup_mapSet (m : List (String × ℚ)) (k k' : String) (v : ℚ) :
    (mapSet m k v).lookup k' = if k' = k then some v else m.lookup k' := by
  induction m with
  | nil =>
      by_cases h : k' = k
      · simp [mapSet, List.lookup, h]
      · have hbeq : (k' == k) = false := beq_eq_false_iff_ne.mpr h
        simp [mapSet, List.lookup, hbeq, h]
  | cons p rest ih =>
      obtain ⟨k0, v0⟩ := p
      by_cases h0 : k0 = k
      · by_cases h1 : k' = k0
        · simp [mapSet, h0, List.lookup, h1]
        · have hbeq : (k' == k0) = false := beq_eq_false_iff_ne.mpr h1
          have h2 : ¬k' = k := fun h => h1 (h.trans h0.symm)
          have hbeq2 : (k' == k) = false := beq_eq_false_iff_ne.mpr h2
          simp [mapSet, h0, List.lookup, hbeq, hbeq2, h1, h2]
      · by_cases h1 : k' = k0
        · have h2 : ¬k' = k := fun h => h0 (h1.symm.trans h)
          simp [mapSet, h0, List.lookup, h1, h2]
        · have hbeq : (k' == k0) = false := beq_eq_false_iff_ne.mpr h1
          simp [mapSet, h0, List.lookup, hbeq, ih]

theorem cellVal_cons (k : String) (inner : List (String × ℚ))
    (rest : List (String × List (String × ℚ))) (mk yStr : String) :
    cellVal ((k, inner) :: rest) mk yStr
      = if mk = k then (inner.lookup yStr).getD 0 else cellVal rest mk yStr := by
  by_cases h : mk = k
  · simp [cellVal, List.lookup, h]
  · have hbeq : (mk == k) = false := beq_eq_false_iff_ne.mpr h
    simp [cellVal, List.lookup, hbeq, h]

theorem cellVal_monthlyAdd (mm : List (String × List (String × ℚ)))
    (mS yS mk yStr : String) (a : ℚ) (hmem : mS ∈ mm.map Prod.fst) :
    cellVal (monthlyAdd mm mS yS a) mk yStr
      = cellVal mm mk yStr + (if mS = mk ∧ yS = yStr then a else 0) := by
  induction mm with
  | nil => simp at hmem
  | cons p rest ih =>
      obtain ⟨k, inner⟩ := p
      by_cases hk : k = mS
      · rw [show monthlyAdd ((k, inner) :: rest) mS yS a
            = (k, mapSet inner yS (((inner.lookup yS).getD 0) + a)) :: rest by
          simp [monthlyAdd, hk]]
        rw [cellVal_cons, cellVal_cons]
        by_cases hmk : mk = k
        · rw [if_pos hmk, if_pos hmk, lookup_mapSet]
          by_cases hy : yStr = yS
          · rw [if_pos hy]
            have hcond : mS = mk ∧ yS = yStr := ⟨hk.symm.trans hmk.symm, hy.symm⟩
            rw [if_pos hcond, hy]
            simp
          · rw [if_neg hy]
            have hcond : ¬(mS = mk ∧ yS = yStr) := fun h => hy h.2.symm
            rw [if_neg hcond, add_zero]
        · rw [if_neg hmk, if_neg hmk]
          have hcond : ¬(mS = mk ∧ yS = yStr) := fun h =>
            hmk (h.1.symm.trans hk.symm)
          rw [if_neg hcond, add_zero]
      · rw [show monthlyAdd ((k, inner) :: rest) mS yS a
            = (k, inner) :: monthlyAdd rest mS yS a by simp [monthlyAdd, hk]]
        have hrest : mS ∈ rest.map Prod.fst := by
          rcases List.mem_map.mp hmem with ⟨q, hq, hfst⟩
          rcases List.mem_cons.mp hq with h' | h'
          · exact absurd (by rw [h'] at hfst; exact hfst) hk
          · exact List.mem_map.mpr ⟨q, h', hfst⟩
        rw [cellVal_cons, cellVal_cons]
        by_cases hmk : mk = k
        · rw [if_pos hmk, if_pos hmk]
          have hcond : ¬(mS = mk ∧ yS = yStr) := fun h =>
            hk ((h.1.trans hmk).symm)
          rw [if_neg hcond, add_zero]
        · rw [if_neg hmk, if_neg hmk, ih hrest]

theorem cellVal_init (mk yStr : String) :
    cellVal (monthKeys.map fun k => (k, ([] : List (String × ℚ)))) mk yStr = 0 := by
  have h : ∀ l : List String,
      ((((l.map fun k => (k, ([] : List (String × ℚ)))).lookup mk).getD []).lookup yStr)
        = none := by
    intro l
    induction l with
    | nil => rfl
    | cons x xs ih =>
        by_cases h : mk = x
        · subst h
          simp [List.lookup]
        · have hbeq : (mk == x) = false := beq_eq_false_iff_ne.mpr h
          simpa [List.lookup, hbeq] using ih
  simp [cellVal, h monthKeys]

theorem trendFold_cell (data : List ProcessedSalesData) :
    ∀ (mm : List (String × List (String × ℚ))) (ys : List ℤ),
      (∀ d ∈ data, padStart2 (toString d.month) ∈ mm.map Prod.fst) →
      ∀ mk yStr : String,
        cellVal ((data.foldl trendStep (mm, ys)).1) mk yStr
          = cellVal mm mk yStr
            + ((data.filter fun d => decide (padStart2 (toString d.month) = mk)
                  && decide (toString d.year = yStr)).map (·.amount)).sum := by
  induction data with
  | nil => intro mm ys _ mk yStr; simp
  | cons d rest ih =>
      intro mm ys hall mk yStr
      simp only [List.foldl_cons, trendStep]
      have hkeys : ∀ d' ∈ rest, padStart2 (toString d'.month)
          ∈ (monthlyAdd mm (padStart2 (toString d.month)) (toString d.year) d.amount).map
              Prod.fst := by
        intro d' hd'
        rw [monthlyAdd_keys]
        exact hall d' (List.mem_cons_of_mem _ hd')
      rw [ih _ _ hkeys mk yStr]
      rw [cellVal_monthlyAdd _ _ _ _ _ _ (hall d (List.mem_cons_self _ _))]
      rw [List.filter_cons]
      by_cases hd : padStart2 (toString d.month) = mk ∧ toString d.year = yStr
      · have hb : (decide (padStart2 (toString d.month) = mk)
            && decide (toString d.year = yStr)) = true := by
          simp [hd.1, hd.2]
        simp only [List.filter_cons, hb, if_true, List.map_cons, List.sum_cons]
        rw [if_pos hd]
        ring
      · have hb : (decide (padStart2 (toString d.month) = mk)
            && decide (toString d.year = yStr)) = false := by
          rcases Decidable.not_and_iff_or_not.mp hd with h | h <;> simp [h]
        simp only [List.filter_cons, hb, Bool.false_eq_true, if_false]
        rw [if_neg hd]
        ring

theorem padMonth_mem (m : ℤ) (h1 : 1 ≤ m) (h2 : m ≤ 12) :
    padStart2 (toString m) ∈ monthKeys := by
  interval_cases m <;> decide

theorem padMonth_eq_iff (dm : ℤ) (h1 : 1 ≤ dm) (h2 : dm ≤ 12) (m : ℕ) (hm1 : 1 ≤ m)
    (hm2 : m ≤ 12) :
    (padStart2 (toString dm) = padStart2 (toString (m : ℤ))) ↔ dm = (m : ℤ) := by
  interval_cases dm <;> interval_cases m <;> decide

theorem lookup_map_pair (g : String → ℚ) (l : List String) (y : String) (hy : y ∈ l) :
    (l.map fun x => (x, g x)).lookup y = some (g y) := by
  induction l with
  | nil => cases hy
  | cons x xs ih =>
      by_cases h : y = x
      · simp [List.lookup, h]
      · have hbeq : (y == x) = false := beq_eq_false_iff_ne.mpr h
        have hmem : y ∈ xs := by
          rcases List.mem_cons.mp hy with h' | h'
          · exact absurd h' h
          · exact h'
        simp [List.lookup, hbeq, ih hmem]

theorem initKeys :
    ((monthKeys.map fun k => (k, ([] : List (String × ℚ)))).map Prod.fst) = monthKeys := by
  rw [List.map_map]
  exact List.map_id' _

theorem getD_map_lt {α : Type u} {β : Type v} [Inhabited β] (f : α → β) (l : List α)
    (i : ℕ) (d : α) (h : i < l.length) :
    (l.map f).getD i default = f (l.getD i d) := by
  rw [List.getD_eq_getElem?_getD, List.getElem?_map, List.getD_eq_getElem?_getD,
    List.getElem?_eq_getElem h]
  simp

/-- C7: for inputs whose months lie in 1..12, `getTrendData` returns exactly 12 trend
points, labelled by the month keys in ascending calendar order; its year list is the
list of distinct years of the input sorted ascending with no cap on count; every point
carries an entry for every returned year; and the entry of point `m` (1-indexed) for a
returned year is the sum of amounts of the records dated in that month and year —
0 when no record falls there, never missing. -/
theorem getTrendData_spec (data : List ProcessedSalesData)
    (hm : ∀ d ∈ data, 1 ≤ d.month ∧ d.month ≤ 12) :
    ((getTrendData data).1.length = 12)
    ∧ ((getTrendData data).1.map (fun p => p.month) = monthKeys.map (fun k => k ++ "月"))
    ∧ (∃ ys : List ℤ, (getTrendData data).2 = ys.map toString
        ∧ ys.Pairwise (· < ·)
        ∧ ∀ y : ℤ, y ∈ ys ↔ ∃ d ∈ data, d.year = y)
    ∧ (∀ p ∈ (getTrendData data).1, p.values.map Prod.fst = (getTrendData data).2)
    ∧ (∀ m : ℕ, 1 ≤ m → m ≤ 12 → ∀ yStr ∈ (getTrendData data).2,
        ((getTrendData data).1.getD (m - 1) default).values.lookup yStr
          = some (((data.filter fun d => decide (d.month = (m : ℤ))
                && decide (toString d.year = yStr)).map (·.amount)).sum)) := by
  have hms : List.insertionSort strLeJS (((data.foldl trendStep
        (monthKeys.map fun k => (k, ([] : List (String × ℚ))), [])).1).map Prod.fst)
      = monthKeys := by
    rw [trendFold_keys, initKeys]
    decide
  simp only [getTrendData]
  rw [hms]
  refine ⟨?_, ?_, ?_, ?_, ?_⟩
  · simp [monthKeys]
  · rw [List.map_map]
    rfl
  · refine ⟨List.insertionSort (· ≤ ·) ((data.foldl trendStep
        (monthKeys.map fun k => (k, ([] : List (String × ℚ))), [])).2), rfl, ?_, ?_⟩
    · have hnodupBase : ((data.foldl trendStep
          (monthKeys.map fun k => (k, ([] : List (String × ℚ))), [])).2).Nodup := by
        rw [trendFold_years]
        exact insertYear_fold_nodup data [] List.nodup_nil
      have hnodup := ((List.perm_insertionSort (· ≤ ·) _).nodup_iff).mpr hnodupBase
      have hsorted : List.Pairwise (· ≤ ·) (List.insertionSort (· ≤ ·)
          ((data.foldl trendStep
            (monthKeys.map fun k => (k, ([] : List (String × ℚ))), [])).2)) :=
        List.sorted_insertionSort (· ≤ ·) _
      exact (hsorted.and hnodup).imp fun h => lt_of_le_of_ne h.1 h.2
    · intro y
      rw [(List.perm_insertionSort (· ≤ ·) _).mem_iff, trendFold_years,
        insertYear_fold_mem]
      simp
  · intro p hp
    obtain ⟨mk, -, rfl⟩ := List.mem_map.mp hp
    rw [List.map_map]
    exact List.map_id' _
  · intro m hm1 hm2 yStr hyStr
    have hlt : m - 1 < monthKeys.length := by
      have h12 : monthKeys.length = 12 := by decide
      omega
    rw [getD_map_lt _ monthKeys (m - 1) "" hlt]
    have hkey : monthKeys.getD (m - 1) "" = padStart2 (toString (m : ℤ)) := by
      interval_cases m <;> decide
    rw [hkey]
    refine Eq.trans (lookup_map_pair _ _ _ hyStr) ?_
    have hall : ∀ d ∈ data, padStart2 (toString d.month)
        ∈ (monthKeys.map fun k => (k, ([] : List (String × ℚ)))).map Prod.fst := by
      intro d hd
      rw [initKeys]
      exact padMonth_mem d.month (hm d hd).1 (hm d hd).2
    have hcell := trendFold_cell data
      (monthKeys.map fun k => (k, ([] : List (String × ℚ)))) [] hall
      (padStart2 (toString (m : ℤ))) yStr
    rw [cellVal_init, zero_add] at hcell
    have hfilter : data.filter (fun d =>
          decide (padStart2 (toString d.month) = padStart2 (toString (m : ℤ)))
            && decide (toString d.year = yStr))
        = data.filter (fun d => decide (d.month = (m : ℤ))
            && decide (toString d.year = yStr)) := by
      apply List.filter_congr
      intro d hd
      have h12 := hm d hd
      rw [decide_eq_decide.mpr (padMonth_eq_iff d.month h12.1 h12.2 m hm1 hm2)]
    show some (cellVal ((data.foldl trendStep
        (monthKeys.map fun k => (k, ([] : List (String × ℚ))), [])).1)
          (padStart2 (toString (m : ℤ))) yStr) = _
    rw [hcell, hfilter]

/-- C8: `processData` produces exactly one enriched record per raw record, in order,
preserving every raw field and attaching the classifier's (category, subCategory)
pair for the product name together with the calendar year and 1-indexed month of the
date string. -/
theorem processData_spec (rules : List CategoryRule) (dC dS : String)
    (rawData : List RawSalesData) :
    (processData rules dC dS rawData).length = rawData.length
    ∧ ∀ i, i < rawData.length →
        ((processData rules dC dS rawData).getD i default).businessUnit
            = (rawData.getD i default).businessUnit
        ∧ ((processData rules dC dS rawData).getD i default).department
            = (rawData.getD i default).department
        ∧ ((processData rules dC dS rawData).getD i default).salesperson
            = (rawData.getD i default).salesperson
        ∧ ((processData rules dC dS rawData).getD i default).date
            = (rawData.getD i default).date
        ∧ ((processData rules dC dS rawData).getD i default).customerName
            = (rawData.getD i default).customerName
        ∧ ((processData rules dC dS rawData).getD i default).companyName
            = (rawData.getD i default).companyName
        ∧ ((processData rules dC dS rawData).getD i default).sku
            = (rawData.getD i default).sku
        ∧ ((processData rules dC dS rawData).getD i default).productName
            = (rawData.getD i default).productName
        ∧ ((processData rules dC dS rawData).getD i default).quantity
            = (rawData.getD i default).quantity
        ∧ ((processData rules dC dS rawData).getD i default).amount
            = (rawData.getD i default).amount
        ∧ (((processData rules dC dS rawData).getD i default).category,
            ((processData rules dC dS rawData).getD i default).subCategory)
            = mapProductCategory rules dC dS ((rawData.getD i default).productName)
        ∧ ((processData rules dC dS rawData).getD i default).year
            = yearOfDate ((rawData.getD i default).date)
        ∧ ((processData rules dC dS rawData).getD i default).month
            = monthOfDate ((rawData.getD i default).date) := by
  constructor
  · simp [processData]
  · intro i hi
    simp only [processData]
    rw [getD_map_lt _ rawData i default hi]
    exact ⟨rfl, rfl, rfl, rfl, rfl, rfl, rfl, rfl, rfl, rfl, rfl, rfl, rfl⟩

/-- C10 is refuted: with a non-parsing `startYear` but a parsing end bound, the date
range test still rejects records beyond the end bound — it does not degenerate to
"no date restriction" whenever just one of the four strings fails to parse. -/
theorem dateRange_nan_counterexample :
    parseIntJS badStartFilters.startYear = none
    ∧ dateRangeOk badStartFilters sampleItem = false
    ∧ filterData [sampleItem] badStartFilters none = [] :=
  ⟨by decide, by decide, by decide⟩

/-- C10 (amended): when each of the two bounds has a component that fails to parse —
in particular the application's initial filter state, where `startYear` and `endYear`
are both empty — both `NaN` comparisons are false, so the date-range test accepts
every record and `filterData` behaves as if no date restriction were present, the
remaining predicates still applying. -/
theorem dateRangeOk_nan_bounds (filters : FilterState)
    (hs : parseIntJS filters.startYear = none ∨ parseIntJS filters.startMonth = none)
    (he : parseIntJS filters.endYear = none ∨ parseIntJS filters.endMonth = none) :
    ∀ item : ProcessedSalesData, dateRangeOk filters item = true := by
  intro item
  have hstart : jsAdd (jsMul (parseIntJS filters.startYear) (some 100))
      (parseIntJS filters.startMonth) = none := by
    rcases hs with h | h
    · rw [h]
      cases parseIntJS filters.startMonth <;> rfl
    · rw [h]
      cases jsMul (parseIntJS filters.startYear) (some 100) <;> rfl
  have hend : jsAdd (jsMul (parseIntJS filters.endYear) (some 100))
      (parseIntJS filters.endMonth) = none := by
    rcases he with h | h
    · rw [h]
      cases parseIntJS filters.endMonth <;> rfl
    · rw [h]
      cases jsMul (parseIntJS filters.endYear) (some 100) <;> rfl
  simp only [dateRangeOk]
  rw [hstart, hend]
  rfl

theorem dateRangeOk_nan_bounds_witness :
    (parseIntJS initialFilters.startYear = none
      ∨ parseIntJS initialFilters.startMonth = none)
    ∧ (parseIntJS initialFilters.endYear = none
      ∨ parseIntJS initialFilters.endMonth = none)
    ∧ dateRangeOk initialFilters sampleItem = true :=
  ⟨Or.inl (by decide), Or.inl (by decide),
   dateRangeOk_nan_bounds initialFilters (Or.inl (by decide)) (Or.inl (by decide))
     sampleItem⟩

theorem dateRangeOk_iff_interval_witness :
    (parseIntJS sampleFilters.startYear = some 2021
      ∧ parseIntJS sampleFilters.startMonth = some 1
      ∧ parseIntJS sampleFilters.endYear = some 2021
      ∧ parseIntJS sampleFilters.endMonth = some 12)
    ∧ ((dateRangeOk sampleFilters sampleItem = true ↔
        (2021 * 100 + 1 ≤ sampleItem.year * 100 + sampleItem.month
          ∧ sampleItem.year * 100 + sampleItem.month ≤ 2021 * 100 + 12))
      ∧ ((2021 : ℤ) * 100 + 12 < 2021 * 100 + 1 →
          dateRangeOk sampleFilters sampleItem = false)) :=
  ⟨⟨by decide, by decide, by decide, by decide⟩,
   dateRangeOk_iff_interval sampleFilters sampleItem 2021 1 2021 12
     (by decide) (by decide) (by decide) (by decide)⟩

theorem filterData_dept_constraint_witness :
    ("DeptA" : String) ≠ ""
    ∧ ((∀ r ∈ filterData [sampleItem] sampleFilters (some "DeptA"),
          r.department = "DeptA")
      ∧ (sampleFilters.department ≠ "All" → sampleFilters.department ≠ "" →
          sampleFilters.department ≠ "DeptA" →
          filterData [sampleItem] sampleFilters (some "DeptA") = [])) :=
  ⟨by decide, filterData_dept_constraint [sampleItem] sampleFilters "DeptA" (by decide)⟩

/-- C4 is refuted as stated: a non-empty input whose grand total is 0 (here a single
record of amount 0) yields percentages summing to 0, not 100. -/
theorem aggregateByField_percentage_counterexample :
    ([zeroItem] : List ProcessedSalesData) ≠ []
    ∧ ((aggregateByField [zeroItem] SalesField.department).map
        (fun p => p.percentage)).sum = 0 :=
  ⟨List.cons_ne_nil _ _, by
    norm_num [aggregateByField, aggregateEntries, aggStep, fieldString, mapSet,
      zeroItem, sampleItem, List.insertionSort, List.orderedInsert]⟩

theorem aggregateByField_percentage_sum_witness :
    ((0 : ℚ) < totalAmount [sampleItem])
    ∧ ((aggregateByField [sampleItem] SalesField.department).map
        (fun p => p.percentage)).sum = 100 :=
  ⟨by norm_num [totalAmount, sampleItem],
   (aggregateByField_percentage_sum [sampleItem] SalesField.department).1
     (by norm_num [totalAmount, sampleItem])⟩

theorem getTrendData_spec_witness :
    (∀ d ∈ [sampleItem], 1 ≤ d.month ∧ d.month ≤ 12)
    ∧ (getTrendData [sampleItem]).1.length = 12
    ∧ ((getTrendData [sampleItem]).1.getD (3 - 1) default).values.lookup "2021"
        = some ((([sampleItem].filter fun d => decide (d.month = ((3 : ℕ) : ℤ))
              && decide (toString d.year = "2021")).map (·.amount)).sum) :=
  ⟨by decide,
   (getTrendData_spec [sampleItem] (by decide)).1,
   (getTrendData_spec [sampleItem] (by decide)).2.2.2.2 3 (by decide) (by decide)
     "2021" (by decide)⟩

theorem processData_spec_witness :
    ((0 : ℕ) < [sampleRaw].length)
    ∧ ((processData sampleRules "未分类" "其他" [sampleRaw]).getD 0 default).year
        = yearOfDate (([sampleRaw].getD 0 default).date) :=
  ⟨by decide,
   ((processData_spec sampleRules "未分类" "其他" [sampleRaw]).2 0
     (by decide)).2.2.2.2.2.2.2.2.2.2.2.1⟩

end Chubang

